import Mathlib

/-!
# Verification of the eNMS execution engine (`eNMS/models/automation.py`)

This file gives a shallow embedding of the core of the eNMS workflow engine:

* `Service.build_results` — the retry/fan-out loop of a Service Run
  (`automation.py`, lines 146-190), embedded as `serviceBuildResults`;
* `Workflow.workflow_run` — the workflow traversal loop
  (`automation.py`, lines 318-438), embedded as `stepOnce`/`traverseLoop`/
  `workflowRun`, together with its helpers `Workflow.compute_valid_devices`
  (`computeValidDevices`) and `Workflow.workflow_targets_processing`
  (`workflowTargetsProcessing`).

External collaborators (child `Run`s created through `factory`, the device
resolver `run.compute_devices`, the expression evaluator `run.eval`, and the
per-device service handlers) are modelled as oracle parameters: the embedding
is parametric in their outcomes, exactly as the loop under verification is.

Devices are identified by their (unique) name, modelled as a `Nat`; jobs are
identified by their (unique) `name : String`.
-/

/-- Truth value of a result's `success` field: Python `True`, `False`, or the
string `"skipped"` (which is truthy). -/
inductive SVal
  | ok
  | fail
  | skipped
deriving DecidableEq, Repr

/-- Python truthiness of a `success` value: `False` is falsy, `True` and the
non-empty string `"skipped"` are truthy. -/
def SVal.truthy : SVal → Bool
  | .fail => false
  | _ => true

/-! ## Service runner (`Service.build_results`, lines 146-190)

The per-attempt handler outcomes are oracles:
`h i d` is the `success` truthiness of the handler result for device `d` at
attempt `i` (with targets); `h0 i` is the `success` of the single target-less
handler invocation at attempt `i`.

The for-loop `for i in range(run.number_of_retries + 1)` is embedded as a
structural recursion on the number of remaining iterations `remain`
(`remain = R - i` throughout, so the source's final-attempt test `i == R` is
the test `remain = 0`). -/

/-- The observable outcome of `Service.build_results`:
`success`, the per-device map `results["results"]["devices"]` (device name
paired with that device's recorded `success`), the extra attempt keys added to
the result dict (`"Attempt <n>"` / `"Attempts <n>"`), the scalar
`results["results"]` of a target-less run, plus a ghost log of every handler
invocation as a pair (attempt index, device). -/
structure SResult where
  success : Bool
  devices : List (Nat × Bool)
  keys : List String
  resultScalar : Option Bool
  log : List (Nat × Nat)
deriving DecidableEq, Repr

/-- Lines 155-180 (the branch with a non-empty target set).
One iteration: invoke the handler on every remaining target (`device_run`),
move the successful devices into `results["results"]["devices"]` and drop them
from `targets`; stop with `success = True` when no target remains; otherwise
record the attempt key when retries are configured, and either recurse
(non-final attempt, `sleep` elided) or copy the failed devices' results and
stop with `success = False` (final attempt). -/
def serviceGoT (h : Nat → Nat → Bool) (R : Nat) :
    Nat → Nat → List Nat → SResult → SResult
  | i, remain, targets, acc =>
    let log := acc.log ++ targets.map fun d => (i, d)
    let devicesDone := acc.devices ++ (targets.filter fun d => h i d).map fun d => (d, true)
    let remainingT := targets.filter fun d => !h i d
    if remainingT.isEmpty then
      { acc with success := true, devices := devicesDone, log := log }
    else
      let keys := if R ≠ 0 then acc.keys ++ ["Attempt " ++ toString (i + 1)] else acc.keys
      match remain with
      | 0 =>
        { success := false
          devices := devicesDone ++ remainingT.map fun d => (d, false)
          keys := keys
          resultScalar := none
          log := log }
      | r + 1 =>
        serviceGoT h R (i + 1) r remainingT
          { acc with devices := devicesDone, keys := keys, log := log }

/-- Lines 181-189 (the target-less branch). The attempt is recorded under key
`"Attempts <i+1>"` (note the plural in the source) on every iteration when
retries are configured; the loop stops as soon as an attempt succeeds or on
the final attempt, copying the attempt verbatim into `results["results"]`. -/
def serviceGoNT (h0 : Nat → Bool) (R : Nat) : Nat → Nat → List String → SResult
  | i, remain, keys =>
    let keys := if R ≠ 0 then keys ++ ["Attempts " ++ toString (i + 1)] else keys
    match remain with
    | 0 => ⟨h0 i, [], keys, some (h0 i), []⟩
    | r + 1 =>
      if h0 i then ⟨true, [], keys, some true, []⟩
      else serviceGoNT h0 R (i + 1) r keys

/-- `Service.build_results` (lines 146-190). `stop` is the run's cancellation
flag, indexed by attempt; the source never reads it inside this function.
`targets` is the outcome of `run.compute_devices` (a set: no duplicate
names); when it is empty every iteration takes the target-less branch. -/
def serviceBuildResults (stop : Nat → Bool) (h0 : Nat → Bool) (h : Nat → Nat → Bool)
    (R : Nat) (targets : List Nat) : SResult :=
  if targets.isEmpty then serviceGoNT h0 R 0 R []
  else serviceGoT h R 0 R targets ⟨false, [], [], none, []⟩

example :
    (serviceBuildResults (fun _ => false) (fun _ => true) (fun _ d => d ≠ 2) 1 [1, 2, 3]).devices
      = [(1, true), (3, true), (2, false)] := by decide

example :
    (serviceBuildResults (fun _ => false) (fun _ => true) (fun _ d => d ≠ 2) 1 [1, 2, 3]).keys
      = ["Attempt 1", "Attempt 2"] := by decide

example :
    (serviceBuildResults (fun _ => false) (fun _ => false) (fun _ _ => true) 1 []).keys
      = ["Attempts 1", "Attempts 2"] := by decide

/-! ## Workflow traversal (`Workflow.workflow_run`, lines 318-438) -/

/-- `WorkflowEdge.subtype` (line 468). -/
inductive EdgeType
  | success
  | failure
  | prerequisite
deriving DecidableEq, Repr

/-- The attributes of a member Job read by the traversal loop.
`skipQuery` is the (boolean) value the evaluator returns for
`job.skip_python_query` when that expression is set (`none` when unset);
`pythonQuery` records whether `job.python_query` (the target query) is set. -/
structure WJob where
  name : String
  isWorkflow : Bool
  hasTargets : Bool
  skip : Bool
  skipQuery : Option Bool
  pythonQuery : Bool
deriving DecidableEq, Repr

/-- A `WorkflowEdge` of the workflow under traversal; the endpoint Jobs are
held directly, as in the ORM relationships (lines 470-482). -/
structure WEdge where
  source : WJob
  destination : WJob
  subtype : EdgeType
deriving DecidableEq, Repr

/-- The workflow under traversal: its member jobs (in list order — by
construction `jobs[1]` is the `End` service, line 241), its edges (in
insertion order, which is the order `adjacent_jobs` yields them), and its
start jobs. -/
structure WF where
  jobs : List WJob
  edges : List WEdge
  startJobs : List WJob
deriving DecidableEq, Repr

/-- The per-node result dict the traversal handles. `success` is the result's
`success` field; `resultsDevices` is `results["results"]["devices"]` when that
key is present (each device paired with the truthiness of its own `success`);
`topDevices` is `results.get("devices", {})` in the same shape. -/
structure JobResult where
  success : SVal
  resultsDevices : Option (List (Nat × Bool))
  topDevices : List (Nat × Bool)
deriving DecidableEq, Repr

/-- The run attributes read by the traversal: `use_workflow_devices`,
whether `traversal_mode == "service"`, the cancellation flag (indexed by loop
iteration, since it may be flipped at any time by the operator), and the
device set `run.compute_devices(payload)` returns. Device sets are modelled
as duplicate-free lists; Python set iteration order is arbitrary, so list
order is a harmless determinization. -/
structure WRun where
  useWorkflowDevices : Bool
  modeService : Bool
  stop : Nat → Bool
  resolver : List Nat

/-- Outcomes of the external collaborators invoked for one node:
`subRun job t` is the result of the per-target child Run scoped to device `t`
(lines 354-372) — `none` models an exception raised while creating or running
it, `some b` the child's `success`; `devRun job d` is the child Run of the
device-mode target-query branch (lines 378-391), `none` again an exception;
`ordinary job ds` is the result of the child Run created with
`properties = {devices: ds}` (lines 399-408). -/
structure Oracles where
  subRun : WJob → Nat → Option Bool
  devRun : WJob → Nat → Option JobResult
  ordinary : WJob → List Nat → JobResult

/-- Jobs adjacent to `job` through an edge of subtype `ty` leaving it
(`adjacent_jobs(self, "destination", ty)`, lines 81-86). -/
def succJobs (wf : WF) (job : WJob) (ty : EdgeType) : List WJob :=
  (wf.edges.filter fun e => e.source = job ∧ e.subtype = ty).map (·.destination)

/-- Jobs adjacent to `job` through an incoming `prerequisite` edge
(`adjacent_jobs(self, "source", "prerequisite")`, line 340). -/
def prereqSources (wf : WF) (job : WJob) : List WJob :=
  (wf.edges.filter fun e => e.destination = job ∧ e.subtype = EdgeType.prerequisite).map
    (·.source)

/-- Pointwise update of the allowed-devices map: `allowed[n] |= s`. -/
def updAllowed (f : String → List Nat) (n : String) (s : List Nat) :
    String → List Nat :=
  fun m => if m = n then f m ∪ s else f m

/-- Lines 290-306 of `workflow_targets_processing`: split the node's result
into passed and failed devices. Jobs with device fan-out (Workflow-typed or
with targets) that were not skipped are split by the per-device `success`
booleans; all other nodes propagate the whole incoming allowed set, as passed
or failed according to the scalar `success` (note `"skipped"` is truthy). -/
def partitionDevices (res : JobResult) (job : WJob) (allowed : String → List Nat) :
    List Nat × List Nat :=
  let skipJob := res.success = SVal.skipped
  if (job.isWorkflow || job.hasTargets) && !skipJob then
    let devices := res.resultsDevices.getD res.topDevices
    ((devices.filter (·.2)).map (·.1), (devices.filter fun p => !p.2).map (·.1))
  else
    if res.success.truthy then (allowed job.name, []) else ([], allowed job.name)

/-- Lines 307-316: walk the successors of `job` along edges of subtype `ty`,
merging `devs` into each successor's allowed set and yielding the successor —
unless `devs` is empty, in which case the whole edge subtype is skipped. -/
def propagateEdges (wf : WF) (job : WJob) (ty : EdgeType) (devs : List Nat)
    (acc : (String → List Nat) × List WJob) : (String → List Nat) × List WJob :=
  if devs = [] then acc
  else
    (succJobs wf job ty).foldl
      (fun acc succ => (updAllowed acc.1 succ.name devs, acc.2 ++ [succ])) acc

/-- `Workflow.workflow_targets_processing` (lines 287-316), as a pure
function: the generator's effect on `allowed_devices` plus the list of
successors it yields, success-edge successors first. -/
def workflowTargetsProcessing (wf : WF) (allowed : String → List Nat) (job : WJob)
    (res : JobResult) : (String → List Nat) × List WJob :=
  let pf := partitionDevices res job allowed
  propagateEdges wf job EdgeType.failure pf.2
    (propagateEdges wf job EdgeType.success pf.1 (allowed, []))

/-- `Workflow.compute_valid_devices` (lines 277-285). -/
def computeValidDevices (run : WRun) (job : WJob) (allowed : String → List Nat) :
    List Nat :=
  if !job.isWorkflow && !job.hasTargets then []
  else if run.useWorkflowDevices then allowed job.name
  else run.resolver

/-- Lines 352-376: the per-target sub-run branch (service mode,
`use_workflow_devices` and a target query set). One child Run per device in
the node's allowed set; a child returning a falsy `success` clears the
aggregate flag, while an exception records `{success: false, error}` for that
device but — as in the source, where the flag is only updated inside the
`try` block — leaves the aggregate flag untouched. `subRunStep` is the loop
body for one device; `perTargetSubRun` the whole branch. -/
def subRunStep (ora : Oracles) (job : WJob) (acc : List (Nat × Bool) × Bool)
    (t : Nat) : List (Nat × Bool) × Bool :=
  match ora.subRun job t with
  | some b => (acc.1 ++ [(t, b)], if !b then false else acc.2)
  | none => (acc.1 ++ [(t, false)], acc.2)

def perTargetSubRun (ora : Oracles) (job : WJob) (targets : List Nat) : JobResult :=
  let dr := targets.foldl (subRunStep ora job) ([], true)
  ⟨if dr.2 then SVal.ok else SVal.fail, some dr.1, []⟩

/-- Lines 345-408: compute the result dict of one node. In order: the skip
test; the target-query branch (per-target sub-runs in service mode, a single
device-scoped child Run in device mode, where an exception — including the
`device.id` dereference when no device is in scope — yields
`{success: false, error}`); otherwise the ordinary child Run over the valid
device set (`{device}` in device mode). The child Run receives
`properties = {devices: [d.id for d in valid_devices]}`. -/
def execJob (run : WRun) (ora : Oracles) (device : Option Nat)
    (allowed : String → List Nat) (job : WJob) : JobResult :=
  let skipJob := job.skipQuery.getD false
  if skipJob || job.skip then ⟨SVal.skipped, none, []⟩
  else if run.useWorkflowDevices && job.pythonQuery then
    if run.modeService then
      perTargetSubRun ora job (allowed job.name)
    else
      match device with
      | some d =>
        match ora.devRun job d with
        | some r => r
        | none => ⟨SVal.fail, none, []⟩
      | none => ⟨SVal.fail, none, []⟩
  else
    let valid :=
      if run.modeService then computeValidDevices run job allowed
      else match device with
        | some d => [d]
        | none => []
    ora.ordinary job valid

/-- The loop state of `workflow_run`: the `jobs` stack (head = next pop, i.e.
the end of the Python list), the `visited` set in visit order, the
`allowed_devices` map, the per-node results written into the payload (and
mirrored into `results["results"]`), the `results["success"]` flag, the
iteration counter (for the cancellation flag), a ghost list of every
successor enqueued by the successor loop, and the two ways the loop can end:
`stopped` (early `return results` on `run.stop`) or `done` (stack empty). -/
structure TState where
  stack : List WJob
  visited : List WJob
  allowed : String → List Nat
  payload : List (String × JobResult)
  resSuccess : Bool
  iter : Nat
  pushed : List WJob
  stopped : Bool
  done : Bool

/-- `payload[job.name] = job_results` on an association list. -/
def upsert (l : List (String × JobResult)) (k : String) (v : JobResult) :
    List (String × JobResult) :=
  if l.any (·.1 == k) then l.map fun p => if p.1 == k then (k, v) else p
  else l ++ [(k, v)]

/-- One iteration of the `while jobs:` loop (lines 334-430): the stop check,
the pop, the visited / prerequisite-join guard (a guarded pop is discarded
without re-enqueueing), then execution of the node, successor selection
(`workflow_targets_processing` when `use_workflow_devices` in service mode,
otherwise the successors along the edge subtype matching the scalar
`success`), the payload update, the push of each successor, and the
`End`-enqueued success flag (line 427, only when `use_workflow_devices` is
off). `halt` means the function returns: the loop is over. -/
def stepOnce (wf : WF) (run : WRun) (ora : Oracles) (device : Option Nat)
    (st : TState) : Bool × TState :=
  match st.stack with
  | [] => (false, { st with done := true })
  | job :: rest =>
    if run.stop st.iter then (false, { st with stopped := true })
    else if job ∈ st.visited ∨ ∃ p ∈ prereqSources wf job, p ∉ st.visited then
      (true, { st with stack := rest, iter := st.iter + 1 })
    else
      let jobResults := execJob run ora device st.allowed job
      let pr :=
        if run.useWorkflowDevices && run.modeService then
          workflowTargetsProcessing wf st.allowed job jobResults
        else
          (st.allowed,
            succJobs wf job (if jobResults.success.truthy then .success else .failure))
      (true,
        { stack := pr.2.reverse ++ rest
          visited := st.visited ++ [job]
          allowed := pr.1
          payload := upsert st.payload job.name jobResults
          resSuccess := pr.2.foldl
            (fun b s => b || (!run.useWorkflowDevices && (wf.jobs[1]? == some s)))
            st.resSuccess
          iter := st.iter + 1
          pushed := st.pushed ++ pr.2
          stopped := false
          done := false })

/-- The `while jobs:` loop, driven by a fuel parameter: the first component
of `stepOnce` says whether the loop continues. When the fuel runs out the
state is returned as-is, with neither `done` nor `stopped` set. -/
def traverseLoop (wf : WF) (run : WRun) (ora : Oracles) (device : Option Nat) :
    Nat → TState → TState
  | 0, st => st
  | fuel + 1, st =>
    match stepOnce wf run ora device st with
    | (false, st') => st'
    | (true, st') => traverseLoop wf run ora device fuel st'

/-- Lines 321-333: the initial loop state. When `use_workflow_devices` in
service mode, `initial_targets = set(run.compute_devices(payload))` is
installed as the allowed set of every start job (the `defaultdict` returns
`∅` elsewhere). In the source all start jobs share one set object and `|=`
mutates it in place; every set ever unioned in is a subset of
`initial_targets` (see `traverse_allowed_subset`), so the aliased and the
pointwise semantics coincide. -/
def initState (wf : WF) (run : WRun) : TState :=
  { stack := wf.startJobs.reverse
    visited := []
    allowed :=
      if run.useWorkflowDevices && run.modeService then
        fun n => if n ∈ wf.startJobs.map (·.name) then run.resolver else []
      else fun _ => []
    payload := []
    resSuccess := false
    iter := 0
    pushed := []
    stopped := false
    done := false }

/-- The outer result envelope of `workflow_run` as far as the claims are
concerned: `results["success"]`, the optional top-level `results["devices"]`
map, and the per-node results. -/
structure WFinal where
  success : Bool
  devices : Option (List (Nat × Bool))
  results : List (String × JobResult)
deriving DecidableEq, Repr

/-- Python `==` on two sets modelled as lists: extensional equality. -/
def eqAsSets (l₁ l₂ : List Nat) : Bool :=
  l₁.all (· ∈ l₂) && l₂.all (· ∈ l₁)

/-- Lines 335-336 and 431-438: the early `return results` on `run.stop`
skips the final block; otherwise, when `use_workflow_devices` in service
mode, `results["devices"]` maps every initial target to its membership in
`allowed_devices["End"]` and `results["success"]` is the set equality
`initial_targets == end_devices`. -/
def finalize (run : WRun) (st : TState) : WFinal :=
  if st.stopped then ⟨st.resSuccess, none, st.payload⟩
  else if run.useWorkflowDevices && run.modeService then
    let endDevices := st.allowed "End"
    ⟨eqAsSets run.resolver endDevices,
      some (run.resolver.map fun d => (d, decide (d ∈ endDevices))),
      st.payload⟩
  else ⟨st.resSuccess, none, st.payload⟩

/-- `Workflow.workflow_run` (lines 318-438). -/
def workflowRun (wf : WF) (run : WRun) (ora : Oracles) (device : Option Nat)
    (fuel : Nat) : WFinal :=
  finalize run (traverseLoop wf run ora device fuel (initState wf run))

/-! ## Concrete fixtures

Member jobs and workflows for the literal scenarios of the spec, and an
oracle under which every child Run succeeds on every device it is given. -/

def jStart : WJob := ⟨"Start", false, true, false, none, false⟩

def jEnd : WJob := ⟨"End", false, true, false, none, false⟩

def jA : WJob := ⟨"A", false, true, false, none, false⟩

def jB : WJob := ⟨"B", false, true, false, none, false⟩

def jC : WJob := ⟨"C", false, true, false, none, false⟩

/-- Every child Run succeeds and reports success for exactly the devices it
was given. -/
def allPassOra : Oracles :=
  { subRun := fun _ _ => some true
    devRun := fun _ _ => some ⟨SVal.ok, none, []⟩
    ordinary := fun _ ds => ⟨SVal.ok, some (ds.map fun d => (d, true)), []⟩ }

/-- A service-mode run with `use_workflow_devices`, never stopped, whose
device resolver yields the single device `1`. -/
def runSvcUwd : WRun := ⟨true, true, fun _ => false, [1]⟩

/-- The prerequisite-join scenario exactly as the spec draws it:
`Start → A`, `Start → B` (success), `A → C`, `B → C` (prerequisite only),
`C → End` (success). -/
def wfPrereqOnly : WF :=
  { jobs := [jStart, jEnd, jA, jB, jC]
    edges :=
      [⟨jStart, jA, .success⟩, ⟨jStart, jB, .success⟩,
        ⟨jA, jC, .prerequisite⟩, ⟨jB, jC, .prerequisite⟩, ⟨jC, jEnd, .success⟩]
    startJobs := [jStart] }

/-- The prerequisite-join workflow with the success edges `A → C` and
`B → C` that carry `C` onto the stack, alongside the prerequisite edges. -/
def wfPrereqJoin : WF :=
  { jobs := [jStart, jEnd, jA, jB, jC]
    edges :=
      [⟨jStart, jA, .success⟩, ⟨jStart, jB, .success⟩,
        ⟨jA, jC, .success⟩, ⟨jB, jC, .success⟩,
        ⟨jA, jC, .prerequisite⟩, ⟨jB, jC, .prerequisite⟩, ⟨jC, jEnd, .success⟩]
    startJobs := [jStart] }

/-- The two-node workflow `Start → End`. -/
def wfStartEnd : WF :=
  { jobs := [jStart, jEnd]
    edges := [⟨jStart, jEnd, .success⟩]
    startJobs := [jStart] }

example :
    (traverseLoop wfPrereqJoin runSvcUwd allPassOra none 10
        (initState wfPrereqJoin runSvcUwd)).visited = [jStart, jB, jA, jC, jEnd] := by
  decide

example :
    (traverseLoop wfPrereqOnly runSvcUwd allPassOra none 10
        (initState wfPrereqOnly runSvcUwd)).visited = [jStart, jB, jA] := by
  decide

example :
    (workflowRun wfStartEnd runSvcUwd allPassOra none 10).success = true := by decide

example :
    (workflowRun wfStartEnd ⟨true, false, fun _ => false, [1]⟩ allPassOra (some 1)
        10).success = false := by decide

/-- A device-mode run (`traversal_mode = "device"`) with
`use_workflow_devices` set, never stopped, resolver yielding device `1`. -/
def runDevUwd : WRun := ⟨true, false, fun _ => false, [1]⟩

/-- A job with a target query (`python_query` set). -/
def jQ : WJob := ⟨"Q", false, true, false, none, true⟩

/-- A job with the `skip` flag set. -/
def jSkip : WJob := ⟨"S", false, true, true, none, false⟩

/-- A start job with the `skip` flag set. -/
def jSkipStart : WJob := ⟨"SS", false, true, true, none, false⟩

/-- A workflow whose single start job is skipped and has a success edge to
`End`. -/
def wfSkipStart : WF :=
  { jobs := [jSkipStart, jEnd]
    edges := [⟨jSkipStart, jEnd, .success⟩]
    startJobs := [jSkipStart] }

/-- A service-mode run with `use_workflow_devices`, never stopped, whose
device resolver yields no devices at all. -/
def runSvcUwdEmpty : WRun := ⟨true, true, fun _ => false, []⟩

/-- An oracle whose per-target sub-run raises an exception on device `1` and
succeeds on every other device. -/
def subRunExcOra : Oracles :=
  { subRun := fun _ t => if t = 1 then none else some true
    devRun := fun _ _ => none
    ordinary := fun _ ds => ⟨SVal.ok, some (ds.map fun d => (d, true)), []⟩ }

/-- Soundness of the child-Run oracle: a child Run reports per-device results
only for devices it was given (`properties = {devices: ds}`). This holds of
the engine itself: a child Service keys `results["results"]["devices"]` by
its computed targets and a child Workflow keys `results["devices"]` by its
initial targets, both resolved from the `devices` property. -/
def OracleSound (ora : Oracles) : Prop :=
  ∀ j ds p,
    p ∈ ((ora.ordinary j ds).resultsDevices.getD (ora.ordinary j ds).topDevices) →
      p.1 ∈ ds

/-- The visit order respects prerequisite edges: every job connected to the
`n`-th visited job by an incoming prerequisite edge was visited earlier. -/
def PrereqOrd (wf : WF) (v : List WJob) : Prop :=
  ∀ n j, v[n]? = some j → ∀ p ∈ prereqSources wf j, p ∈ v.take n

/-- The loop invariant behind line 427: `results["success"]` is exactly
"some successor enqueued so far is `self.jobs[1]` and `use_workflow_devices`
is off". -/
def EndFlag (wf : WF) (run : WRun) (st : TState) : Prop :=
  st.resSuccess =
    st.pushed.any fun s => !run.useWorkflowDevices && (wf.jobs[1]? == some s)

/-! ## Theorems -/

/-- Closed form of the per-target fold: the device map records every target
in order, an exception as `success = false`; the aggregate flag is the
conjunction over the targets whose sub-run did **not** raise. -/
theorem subRunStep_foldl (ora : Oracles) (job : WJob) (targets : List Nat)
    (acc : List (Nat × Bool) × Bool) :
    targets.foldl (subRunStep ora job) acc =
      (acc.1 ++ targets.map (fun t => (t, (ora.subRun job t).getD false)),
        acc.2 && targets.all fun t => (ora.subRun job t).getD true) := by
  induction targets generalizing acc with
  | nil => simp
  | cons t ts ih =>
    rw [List.foldl_cons, ih]
    unfold subRunStep
    cases h : ora.subRun job t with
    | none => simp [h, Bool.and_assoc]
    | some b => cases b <;> simp [h, Bool.and_assoc]

/-- C2, counterexample. With the per-target sub-run raising an exception on
device `1` and succeeding on device `2`, the recorded device results are
`{1: {success: false}, 2: {success: true}}` — whose conjunction is false and
whose sibling `2` did run — yet the node's aggregate `success` is `True`,
contradicting the claim that the aggregate equals the conjunction of the
per-target child successes. -/
theorem subrun_exception_aggregate_cex :
    perTargetSubRun subRunExcOra jQ [1, 2] =
      ⟨SVal.ok, some [(1, false), (2, true)], []⟩ := by
  decide

/-- C2 (amended): for every per-target sub-run of a job with a target query
under `use_workflow_devices` in mode `service`, the recorded device map has
one entry per target in order — an exception recorded as `{success: false}`
without aborting the remaining targets — and the node's aggregate success is
the conjunction of the successes of those targets whose sub-run completed
without an exception (an exception does not affect the aggregate). -/
theorem perTargetSubRun_spec (ora : Oracles) (job : WJob) (targets : List Nat) :
    perTargetSubRun ora job targets =
      ⟨if targets.all (fun t => (ora.subRun job t).getD true) then SVal.ok
        else SVal.fail,
        some (targets.map fun t => (t, (ora.subRun job t).getD false)), []⟩ := by
  unfold perTargetSubRun
  rw [subRunStep_foldl]
  simp

/-- C4, counterexample. In the workflow drawn exactly as the spec's
prerequisite-join scenario — `Start → A`, `Start → B` success edges,
`A --prerequisite--> C`, `B --prerequisite--> C`, `C → End` — the traversal
terminates with `C` executed zero times, not once: successors are enqueued
only along success/failure edges, so a node whose only incoming non-prereq
edges are absent is never put on the stack. -/
theorem prereq_only_edges_cex :
    (traverseLoop wfPrereqOnly runSvcUwd allPassOra none 10
        (initState wfPrereqOnly runSvcUwd)).done = true ∧
      (traverseLoop wfPrereqOnly runSvcUwd allPassOra none 10
          (initState wfPrereqOnly runSvcUwd)).visited.count jC = 0 := by
  decide

/-- C4 (amended): in the prerequisite-join workflow where `A → C` and
`B → C` carry success edges alongside the prerequisite edges, the job `C` is
executed exactly once during the traversal, and only after both `A` and `B`
have been executed. -/
theorem prereq_join_scenario :
    (traverseLoop wfPrereqJoin runSvcUwd allPassOra none 10
        (initState wfPrereqJoin runSvcUwd)).done = true ∧
      (traverseLoop wfPrereqJoin runSvcUwd allPassOra none 10
          (initState wfPrereqJoin runSvcUwd)).visited.count jC = 1 ∧
      (traverseLoop wfPrereqJoin runSvcUwd allPassOra none 10
          (initState wfPrereqJoin runSvcUwd)).visited.indexOf jA <
        (traverseLoop wfPrereqJoin runSvcUwd allPassOra none 10
            (initState wfPrereqJoin runSvcUwd)).visited.indexOf jC ∧
      (traverseLoop wfPrereqJoin runSvcUwd allPassOra none 10
          (initState wfPrereqJoin runSvcUwd)).visited.indexOf jB <
        (traverseLoop wfPrereqJoin runSvcUwd allPassOra none 10
            (initState wfPrereqJoin runSvcUwd)).visited.indexOf jC := by
  decide

/-- C10, counterexample. A non-Workflow job with `has_targets` false and
`use_workflow_devices` off: the claim says the valid device set is produced
by the DeviceResolver (here `[7]`), but `compute_valid_devices` returns the
empty set from its first branch before ever consulting the resolver. -/
theorem no_target_job_empty_valid_cex :
    computeValidDevices ⟨false, true, fun _ => false, [7]⟩
        ⟨"q", false, false, false, none, false⟩ (fun _ => [5]) = [] ∧
      ([] : List Nat) ≠ [7] := by
  constructor
  · decide
  · decide

/-- C10 (amended): in mode `service`, a job that is neither a Workflow nor
has targets always receives the empty valid device set, regardless of
`use_workflow_devices`; any other job receives `allowed[job.name]` when
`use_workflow_devices` is set and the DeviceResolver's result otherwise. -/
theorem compute_valid_devices_cases (run : WRun) (job : WJob)
    (allowed : String → List Nat) :
    (job.isWorkflow = false → job.hasTargets = false →
        computeValidDevices run job allowed = []) ∧
      ((job.isWorkflow = true ∨ job.hasTargets = true) →
        run.useWorkflowDevices = true →
          computeValidDevices run job allowed = allowed job.name) ∧
      ((job.isWorkflow = true ∨ job.hasTargets = true) →
        run.useWorkflowDevices = false →
          computeValidDevices run job allowed = run.resolver) := by
  unfold computeValidDevices
  refine ⟨fun h1 h2 => by simp [h1, h2], fun h1 h2 => ?_, fun h1 h2 => ?_⟩ <;>
    rcases h1 with h1 | h1 <;> simp [h1, h2]

/-- C10, witness for `compute_valid_devices_cases`: a Workflow-typed job
with `use_workflow_devices` off gets the resolver's devices. -/
theorem compute_valid_devices_cases_witness :
    (((⟨"w", true, true, false, none, false⟩ : WJob).isWorkflow = true ∨
        (⟨"w", true, true, false, none, false⟩ : WJob).hasTargets = true) ∧
      (⟨false, true, fun _ => false, [7]⟩ : WRun).useWorkflowDevices = false) ∧
      computeValidDevices ⟨false, true, fun _ => false, [7]⟩
        ⟨"w", true, true, false, none, false⟩ (fun _ => [5]) = [7] :=
  ⟨⟨Or.inl rfl, rfl⟩,
    (compute_valid_devices_cases ⟨false, true, fun _ => false, [7]⟩
        ⟨"w", true, true, false, none, false⟩ (fun _ => [5])).2.2 (Or.inl rfl) rfl⟩

/-- Folding a boolean or over a list is the initial value or-ed with `any`. -/
theorem foldl_bor_any {α : Type} (p : α → Bool) (l : List α) (b : Bool) :
    l.foldl (fun acc s => acc || p s) b = (b || l.any p) := by
  induction l generalizing b with
  | nil => rw [List.foldl_nil, List.any_nil, Bool.or_false]
  | cons x xs ih => rw [List.foldl_cons, ih, List.any_cons, Bool.or_assoc]

theorem stepOnce_endFlag (wf : WF) (run : WRun) (ora : Oracles)
    (device : Option Nat) (st : TState) (h : EndFlag wf run st) :
    EndFlag wf run (stepOnce wf run ora device st).2 := by
  unfold EndFlag at *
  unfold stepOnce
  cases hs : st.stack with
  | nil => simpa using h
  | cons job rest =>
    by_cases hstop : run.stop st.iter
    · simpa [hstop] using h
    · have hstop' : run.stop st.iter = false := by simpa using hstop
      by_cases hg : job ∈ st.visited ∨ ∃ p ∈ prereqSources wf job, p ∉ st.visited
      · simpa [hstop', hg] using h
      · simp only [hstop', Bool.false_eq_true, if_false, hg, if_true]
        rw [foldl_bor_any, h, List.any_append]

theorem traverseLoop_endFlag (wf : WF) (run : WRun) (ora : Oracles)
    (device : Option Nat) (fuel : Nat) (st : TState) (h : EndFlag wf run st) :
    EndFlag wf run (traverseLoop wf run ora device fuel st) := by
  induction fuel generalizing st with
  | zero => exact h
  | succ n ih =>
    unfold traverseLoop
    have h' := stepOnce_endFlag wf run ora device st h
    rcases hs : stepOnce wf run ora device st with ⟨b, st'⟩
    rw [hs] at h'
    cases b
    · exact h'
    · exact ih st' h'

/-- When `use_workflow_devices` is off, the final envelope's `success` is the
accumulated flag, whether the loop was stopped or ran out. -/
theorem finalize_success_of_not_uwd (run : WRun) (st : TState)
    (h : run.useWorkflowDevices = false) :
    (finalize run st).success = st.resSuccess := by
  unfold finalize
  by_cases hs : st.stopped <;> simp [hs, h]

/-- C6, counterexample. The workflow `Start → End` run in mode `device` with
`use_workflow_devices` set: the End job is enqueued as a successor (it is
even visited), yet `results["success"]` stays `False`, because line 427
guards the success assignment with `not run.use_workflow_devices`, not with
"`use_workflow_devices` off or mode `device`". -/
theorem device_mode_uwd_success_cex :
    (traverseLoop wfStartEnd runDevUwd allPassOra (some 1) 10
        (initState wfStartEnd runDevUwd)).pushed = [jEnd] ∧
      (traverseLoop wfStartEnd runDevUwd allPassOra (some 1) 10
          (initState wfStartEnd runDevUwd)).done = true ∧
      (workflowRun wfStartEnd runDevUwd allPassOra (some 1) 10).success = false := by
  decide

/-- C6 (amended): `results["success"]` becomes true exactly when some
enqueued successor is the Workflow's End job (`self.jobs[1]`) **and**
`use_workflow_devices` is off — in either traversal mode; when
`use_workflow_devices` is set and the traversal runs in mode `device`, the
flag is never set and the result's `success` is false. -/
theorem end_enqueued_success_flag (wf : WF) (run : WRun) (ora : Oracles)
    (device : Option Nat) (fuel : Nat) :
    (run.useWorkflowDevices = false →
      ((workflowRun wf run ora device fuel).success = true ↔
        ∃ s ∈ (traverseLoop wf run ora device fuel (initState wf run)).pushed,
          wf.jobs[1]? = some s)) ∧
      (run.useWorkflowDevices = true → run.modeService = false →
        (workflowRun wf run ora device fuel).success = false) := by
  have hinit : EndFlag wf run (initState wf run) := by
    unfold EndFlag initState
    simp
  have hinv := traverseLoop_endFlag wf run ora device fuel (initState wf run) hinit
  unfold EndFlag at hinv
  constructor
  · intro huwd
    unfold workflowRun
    rw [finalize_success_of_not_uwd run _ huwd, hinv]
    simp [huwd, List.any_eq_true]
  · intro huwd hmode
    unfold workflowRun finalize
    by_cases hs : (traverseLoop wf run ora device fuel (initState wf run)).stopped <;>
      simp [hs, huwd, hmode, hinv]

/-- C6, witness for `end_enqueued_success_flag`: `Start → End` with
`use_workflow_devices` off yields `success = true`, with End among the
enqueued successors. -/
theorem end_enqueued_success_flag_witness :
    (⟨false, true, fun _ => false, [1]⟩ : WRun).useWorkflowDevices = false ∧
      ((workflowRun wfStartEnd ⟨false, true, fun _ => false, [1]⟩ allPassOra none
            10).success = true ↔
        ∃ s ∈ (traverseLoop wfStartEnd ⟨false, true, fun _ => false, [1]⟩ allPassOra none
            10 (initState wfStartEnd ⟨false, true, fun _ => false, [1]⟩)).pushed,
          wfStartEnd.jobs[1]? = some s) :=
  ⟨rfl,
    (end_enqueued_success_flag wfStartEnd ⟨false, true, fun _ => false, [1]⟩
        allPassOra none 10).1 rfl⟩

/-- C8, counterexample. A Service Run with one device, `retries = 1`, whose
handler always fails, and whose `stop` flag is raised from the very start:
the handler is nevertheless invoked at attempt 0 **and again** at attempt 1 —
`Service.build_results` never reads `run.stop`, so cancellation is not
honored between successive attempts, contradicting the claim. -/
theorem service_ignores_stop_cex :
    (serviceBuildResults (fun _ => true) (fun _ => false) (fun _ _ => false) 1
        [5]).log = [(0, 5), (1, 5)] := by
  decide

/-- C8 (amended): the stop flag is checked at the top of every Workflow
traversal loop iteration — the loop returns immediately with the accumulated
partial results (`results["success"]` and the per-node results as collected
so far) — but the Service retry loop never reads the stop flag: its outcome
is identical under every stop schedule. -/
theorem stop_handling :
    (∀ (wf : WF) (run : WRun) (ora : Oracles) (device : Option Nat) (st : TState)
        (j : WJob) (rest : List WJob), st.stack = j :: rest →
        run.stop st.iter = true →
        stepOnce wf run ora device st = (false, { st with stopped := true })) ∧
      (∀ (run : WRun) (st : TState),
        (finalize run { st with stopped := true }).success = st.resSuccess ∧
          (finalize run { st with stopped := true }).results = st.payload) ∧
      (∀ (s₁ s₂ : Nat → Bool) (h0 : Nat → Bool) (h : Nat → Nat → Bool) (R : Nat)
        (targets : List Nat),
        serviceBuildResults s₁ h0 h R targets = serviceBuildResults s₂ h0 h R targets) := by
  refine ⟨fun wf run ora device st j rest hstk hstop => ?_, fun run st => ?_,
    fun s₁ s₂ h0 h R targets => rfl⟩
  · unfold stepOnce
    rw [hstk]
    simp [hstop]
  · unfold finalize
    simp

/-- C8, witness for `stop_handling`: a concrete one-job stack with the stop
flag raised halts at once with the accumulated state. -/
theorem stop_handling_witness :
    (⟨[jStart], [], fun _ => [], [], false, 0, [], false, false⟩ : TState).stack
        = jStart :: [] ∧
      (⟨true, true, fun _ => true, [1]⟩ : WRun).stop 0 = true ∧
      stepOnce wfStartEnd ⟨true, true, fun _ => true, [1]⟩ allPassOra none
          ⟨[jStart], [], fun _ => [], [], false, 0, [], false, false⟩ =
        (false,
          { (⟨[jStart], [], fun _ => [], [], false, 0, [], false, false⟩ : TState) with
              stopped := true }) :=
  ⟨rfl, rfl,
    stop_handling.1 wfStartEnd ⟨true, true, fun _ => true, [1]⟩ allPassOra none
      ⟨[jStart], [], fun _ => [], [], false, 0, [], false, false⟩ jStart [] rfl rfl⟩

/-- Membership in a pointwise-updated allowed map. -/
theorem updAllowed_mem (f : String → List Nat) (m : String) (s : List Nat)
    (n : String) (d : Nat) :
    d ∈ updAllowed f m s n ↔ d ∈ f n ∨ (n = m ∧ d ∈ s) := by
  unfold updAllowed
  by_cases hn : n = m <;> simp [hn, List.mem_union_iff]

/-- Membership in the allowed map after walking a successor list. -/
theorem foldl_updAllowed_mem (devs : List Nat) (l : List WJob) :
    ∀ (f : String → List Nat) (acc : List WJob) (n : String) (d : Nat),
      d ∈ (l.foldl
            (fun acc succ => (updAllowed acc.1 succ.name devs, acc.2 ++ [succ]))
            (f, acc)).1 n ↔
        d ∈ f n ∨ (n ∈ l.map (·.name) ∧ d ∈ devs) := by
  induction l with
  | nil => intro f acc n d; simp
  | cons s l ih =>
    intro f acc n d
    rw [List.foldl_cons, ih, updAllowed_mem]
    simp only [List.map_cons, List.mem_cons]
    tauto

/-- The successor list collected while walking a successor list. -/
theorem foldl_updAllowed_snd (devs : List Nat) (l : List WJob) :
    ∀ (f : String → List Nat) (acc : List WJob),
      (l.foldl
          (fun acc succ => (updAllowed acc.1 succ.name devs, acc.2 ++ [succ]))
          (f, acc)).2 = acc ++ l := by
  induction l with
  | nil => intro f acc; simp
  | cons s l ih => intro f acc; rw [List.foldl_cons, ih]; simp

/-- Membership in the allowed map after `propagateEdges`. -/
theorem propagateEdges_mem (wf : WF) (job : WJob) (ty : EdgeType) (devs : List Nat)
    (acc : (String → List Nat) × List WJob) (n : String) (d : Nat) :
    d ∈ (propagateEdges wf job ty devs acc).1 n ↔
      d ∈ acc.1 n ∨ (n ∈ (succJobs wf job ty).map (·.name) ∧ d ∈ devs) := by
  unfold propagateEdges
  by_cases hd : devs = []
  · simp [hd]
  · rw [if_neg hd]
    rcases acc with ⟨f, a⟩
    exact foldl_updAllowed_mem devs _ f a n d

/-- The successors yielded by `propagateEdges`. -/
theorem propagateEdges_snd (wf : WF) (job : WJob) (ty : EdgeType) (devs : List Nat)
    (acc : (String → List Nat) × List WJob) :
    (propagateEdges wf job ty devs acc).2 =
      acc.2 ++ (if devs = [] then [] else succJobs wf job ty) := by
  unfold propagateEdges
  by_cases hd : devs = []
  · simp [hd]
  · rw [if_neg hd, if_neg hd]
    rcases acc with ⟨f, a⟩
    exact foldl_updAllowed_snd devs _ f a

/-- A skipped node splits into "everything passed, nothing failed":
`"skipped"` is truthy and the per-device branch is bypassed. -/
theorem partitionDevices_skipped (allowed : String → List Nat) (job : WJob) :
    partitionDevices ⟨SVal.skipped, none, []⟩ job allowed = (allowed job.name, []) := by
  unfold partitionDevices
  simp [SVal.truthy]

/-- C9, counterexample. Under `use_workflow_devices` in mode `service`, a
skipped start job whose incoming allowed set is empty (the resolver returned
no devices — plain configuration): the job does have a success-edge
successor (`End`), yet `if not devices: continue` (lines 310-312) yields no
successor at all — the whole traversal enqueues nothing and `End` is never
visited — contradicting the claim that the skipped job's successors are
selected along success-edges. -/
theorem skipped_empty_allowed_cex :
    succJobs wfSkipStart jSkipStart EdgeType.success = [jEnd] ∧
      (traverseLoop wfSkipStart runSvcUwdEmpty allPassOra none 10
          (initState wfSkipStart runSvcUwdEmpty)).done = true ∧
      (traverseLoop wfSkipStart runSvcUwdEmpty allPassOra none 10
          (initState wfSkipStart runSvcUwdEmpty)).visited = [jSkipStart] ∧
      (traverseLoop wfSkipStart runSvcUwdEmpty allPassOra none 10
          (initState wfSkipStart runSvcUwdEmpty)).pushed = [] ∧
      (workflowTargetsProcessing wfSkipStart (fun _ => []) jSkipStart
          ⟨SVal.skipped, none, []⟩).2 = [] := by
  decide

/-- C9 (amended): for every job in a Workflow traversal whose `skip` flag is
set or whose skip query evaluates truthy, the job's result is exactly
`{success: "skipped"}` and no failure-edge successor is ever enqueued from
it (the scalar selector picks the `success` subtype since `"skipped"` is
truthy). Under `use_workflow_devices` in mode `service`,
`workflow_targets_processing` yields exactly the success-edge successors
when the job's incoming allowed set is non-empty, merging the entire
incoming allowed set into each of their allowed sets as passed devices;
when the incoming allowed set is empty, it yields no successor at all and
leaves every allowed set unchanged. -/
theorem skip_semantics :
    (∀ (run : WRun) (ora : Oracles) (device : Option Nat)
        (allowed : String → List Nat) (job : WJob),
        job.skipQuery.getD false = true ∨ job.skip = true →
          execJob run ora device allowed job = ⟨SVal.skipped, none, []⟩) ∧
      (∀ (wf : WF) (allowed : String → List Nat) (job : WJob),
        allowed job.name ≠ [] →
          (workflowTargetsProcessing wf allowed job ⟨SVal.skipped, none, []⟩).2 =
              succJobs wf job EdgeType.success ∧
            ∀ (n : String) (d : Nat),
              d ∈ (workflowTargetsProcessing wf allowed job
                    ⟨SVal.skipped, none, []⟩).1 n ↔
                d ∈ allowed n ∨
                  (n ∈ (succJobs wf job EdgeType.success).map (·.name) ∧
                    d ∈ allowed job.name)) ∧
      ((if (⟨SVal.skipped, none, []⟩ : JobResult).success.truthy then EdgeType.success
        else EdgeType.failure) = EdgeType.success) ∧
      (∀ (wf : WF) (allowed : String → List Nat) (job : WJob),
        allowed job.name = [] →
          (workflowTargetsProcessing wf allowed job ⟨SVal.skipped, none, []⟩).2 =
              ([] : List WJob) ∧
            ∀ n : String,
              (workflowTargetsProcessing wf allowed job
                ⟨SVal.skipped, none, []⟩).1 n = allowed n) := by
  refine ⟨fun run ora device allowed job hskip => ?_, fun wf allowed job hne => ?_, rfl,
    fun wf allowed job hempty => ?_⟩
  · unfold execJob
    have : (job.skipQuery.getD false || job.skip) = true := by
      rcases hskip with h | h <;> simp [h]
    simp [this]
  · unfold workflowTargetsProcessing
    rw [partitionDevices_skipped]
    constructor
    · rw [propagateEdges_snd, propagateEdges_snd]
      simp [hne]
    · intro n d
      rw [propagateEdges_mem, propagateEdges_mem]
      simp
  · unfold workflowTargetsProcessing
    rw [partitionDevices_skipped, hempty]
    constructor
    · rw [propagateEdges_snd, propagateEdges_snd]
      simp
    · intro n
      unfold propagateEdges
      rw [if_pos rfl, if_pos rfl]

/-- C9, witness for `skip_semantics`: a concrete skipped job yields the
skipped result and propagates its allowed set along success edges only, and
a concrete skipped job with an empty allowed set yields no successor. -/
theorem skip_semantics_witness :
    (jSkip.skipQuery.getD false = true ∨ jSkip.skip = true) ∧
      execJob runSvcUwd allPassOra none (fun _ => [1]) jSkip =
        ⟨SVal.skipped, none, []⟩ ∧
      (workflowTargetsProcessing wfStartEnd (fun _ => [1]) jSkip
          ⟨SVal.skipped, none, []⟩).2 = succJobs wfStartEnd jSkip EdgeType.success ∧
      (workflowTargetsProcessing wfStartEnd (fun _ => []) jSkip
          ⟨SVal.skipped, none, []⟩).2 = ([] : List WJob) :=
  ⟨Or.inr rfl,
    skip_semantics.1 runSvcUwd allPassOra none (fun _ => [1]) jSkip (Or.inr rfl),
    (skip_semantics.2.1 wfStartEnd (fun _ => [1]) jSkip (by simp)).1,
    (skip_semantics.2.2.2 wfStartEnd (fun _ => []) jSkip rfl).1⟩

/-- Appending a job whose prerequisites are all already visited preserves
the prerequisite ordering of the visit list. -/
theorem prereqOrd_append (wf : WF) (v : List WJob) (j : WJob)
    (hv : PrereqOrd wf v) (hj : ∀ p ∈ prereqSources wf j, p ∈ v) :
    PrereqOrd wf (v ++ [j]) := by
  intro n x hx p hp
  rcases lt_trichotomy n v.length with h | h | h
  · rw [List.getElem?_append_left h] at hx
    rw [List.take_append_of_le_length (le_of_lt h)]
    exact hv n x hx p hp
  · subst h
    rw [List.getElem?_append_right (le_refl _)] at hx
    simp only [Nat.sub_self, List.getElem?_cons_zero, Option.some.injEq] at hx
    subst hx
    rw [List.take_left]
    exact hj p hp
  · rw [List.getElem?_append_right (le_of_lt h)] at hx
    rw [List.getElem?_eq_none (by simp; omega)] at hx
    exact absurd hx (by simp)

theorem stepOnce_prereqOrd (wf : WF) (run : WRun) (ora : Oracles)
    (device : Option Nat) (st : TState) (h : PrereqOrd wf st.visited) :
    PrereqOrd wf (stepOnce wf run ora device st).2.visited := by
  unfold stepOnce
  cases hs : st.stack with
  | nil => simpa using h
  | cons job rest =>
    by_cases hstop : run.stop st.iter
    · simpa [hstop] using h
    · have hstop' : run.stop st.iter = false := by simpa using hstop
      by_cases hg : job ∈ st.visited ∨ ∃ p ∈ prereqSources wf job, p ∉ st.visited
      · simpa [hstop', hg] using h
      · push_neg at hg
        simp only [hstop', Bool.false_eq_true, if_false]
        rw [if_neg]
        · exact prereqOrd_append wf st.visited job h hg.2
        · push_neg
          exact hg

theorem traverseLoop_prereqOrd (wf : WF) (run : WRun) (ora : Oracles)
    (device : Option Nat) (fuel : Nat) (st : TState)
    (h : PrereqOrd wf st.visited) :
    PrereqOrd wf (traverseLoop wf run ora device fuel st).visited := by
  induction fuel generalizing st with
  | zero => exact h
  | succ n ih =>
    unfold traverseLoop
    have h' := stepOnce_prereqOrd wf run ora device st h
    rcases hs : stepOnce wf run ora device st with ⟨b, st'⟩
    rw [hs] at h'
    cases b
    · exact h'
    · exact ih st' h'

/-- C5: in every Workflow traversal, a job is never added to the visited set
(and hence never executed) before all of its prerequisite-edge predecessors
are in the visited set — the visit order always respects prerequisite edges —
and a pop of a job with an unvisited prerequisite predecessor is discarded:
the stack loses that pop, and nothing else in the state changes (no
re-enqueueing, no visit). -/
theorem prereq_barrier_invariant :
    (∀ (wf : WF) (run : WRun) (ora : Oracles) (device : Option Nat) (fuel : Nat),
      PrereqOrd wf (traverseLoop wf run ora device fuel (initState wf run)).visited) ∧
      (∀ (wf : WF) (run : WRun) (ora : Oracles) (device : Option Nat) (st : TState)
        (j : WJob) (rest : List WJob),
        st.stack = j :: rest → run.stop st.iter = false →
        (∃ p ∈ prereqSources wf j, p ∉ st.visited) →
        stepOnce wf run ora device st =
          (true, { st with stack := rest, iter := st.iter + 1 })) := by
  constructor
  · intro wf run ora device fuel
    apply traverseLoop_prereqOrd
    intro n x hx
    simp [initState] at hx
  · intro wf run ora device st j rest hstk hstop hex
    unfold stepOnce
    rw [hstk, hstop]
    simp only [Bool.false_eq_true, if_false]
    rw [if_pos (Or.inr hex)]

/-- C5, witness for `prereq_barrier_invariant`: the prerequisite ordering
holds of the concrete join traversal, and a concrete pop of `C` with `A`, `B`
unvisited is discarded without re-enqueueing. -/
theorem prereq_barrier_invariant_witness :
    PrereqOrd wfPrereqJoin
        (traverseLoop wfPrereqJoin runSvcUwd allPassOra none 10
          (initState wfPrereqJoin runSvcUwd)).visited ∧
      stepOnce wfPrereqJoin runSvcUwd allPassOra none
          ⟨[jC], [], fun _ => [], [], false, 0, [], false, false⟩ =
        (true,
          { (⟨[jC], [], fun _ => [], [], false, 0, [], false, false⟩ : TState) with
              stack := [], iter := 0 + 1 }) :=
  ⟨prereq_barrier_invariant.1 wfPrereqJoin runSvcUwd allPassOra none 10,
    prereq_barrier_invariant.2 wfPrereqJoin runSvcUwd allPassOra none
      ⟨[jC], [], fun _ => [], [], false, 0, [], false, false⟩ jC [] rfl rfl
      ⟨jA, by decide, by decide⟩⟩

/-- Python set equality on two lists is extensional equality. -/
theorem eqAsSets_iff (l₁ l₂ : List Nat) :
    eqAsSets l₁ l₂ = true ↔ ∀ d, d ∈ l₁ ↔ d ∈ l₂ := by
  unfold eqAsSets
  rw [Bool.and_eq_true, List.all_eq_true, List.all_eq_true]
  constructor
  · intro h d
    exact ⟨fun h1 => by simpa using h.1 d h1, fun h2 => by simpa using h.2 d h2⟩
  · intro h
    exact ⟨fun d hd => by simpa using (h d).1 hd, fun d hd => by simpa using (h d).2 hd⟩

/-- Both halves of the passed/failed split lie below `I` when the node's
reported devices and its incoming allowed set do. -/
theorem partitionDevices_below (I : List Nat) (res : JobResult) (job : WJob)
    (allowed : String → List Nat)
    (hres : ∀ p ∈ res.resultsDevices.getD res.topDevices, p.1 ∈ I)
    (hall : allowed job.name ⊆ I) :
    (partitionDevices res job allowed).1 ⊆ I ∧
      (partitionDevices res job allowed).2 ⊆ I := by
  by_cases hb :
      ((job.isWorkflow || job.hasTargets) && !decide (res.success = SVal.skipped)) = true
  · simp only [partitionDevices, hb, if_true]
    constructor <;>
      · intro d hd
        simp only [List.mem_map, List.mem_filter] at hd
        obtain ⟨p, ⟨hp, _⟩, rfl⟩ := hd
        exact hres p hp
  · rw [Bool.not_eq_true] at hb
    by_cases ht : res.success.truthy = true
    · simp only [partitionDevices, hb, Bool.false_eq_true, if_false, ht, if_true]
      exact ⟨hall, by simp⟩
    · rw [Bool.not_eq_true] at ht
      simp only [partitionDevices, hb, ht, Bool.false_eq_true, if_false]
      exact ⟨by simp, hall⟩

/-- In `use_workflow_devices` service mode the devices a node's result
reports all lie in the initial target superset `I`, provided every allowed
set does and the child-Run oracle is sound. -/
theorem execJob_reported_below (I : List Nat) (run : WRun) (ora : Oracles)
    (device : Option Nat) (allowed : String → List Nat) (job : WJob)
    (huwd : run.useWorkflowDevices = true) (hms : run.modeService = true)
    (hsound : OracleSound ora) (hall : ∀ n, allowed n ⊆ I) :
    ∀ p ∈ (execJob run ora device allowed job).resultsDevices.getD
        (execJob run ora device allowed job).topDevices, p.1 ∈ I := by
  by_cases hskip : (job.skipQuery.getD false || job.skip) = true
  · simp only [execJob, hskip, if_true]
    simp
  · rw [Bool.not_eq_true] at hskip
    by_cases hq : job.pythonQuery = true
    · simp only [execJob, hskip, Bool.false_eq_true, if_false, huwd, hq, Bool.and_self,
        if_true, hms]
      unfold perTargetSubRun
      rw [subRunStep_foldl]
      intro p hp
      simp only [Option.getD_some, List.nil_append, List.mem_map] at hp
      obtain ⟨t, ht, rfl⟩ := hp
      exact hall job.name ht
    · rw [Bool.not_eq_true] at hq
      simp only [execJob, hskip, Bool.false_eq_true, if_false, huwd, hq, Bool.and_false,
        hms, if_true]
      intro p hp
      have hmem := hsound job (computeValidDevices run job allowed) p hp
      unfold computeValidDevices at hmem
      by_cases hw : (!job.isWorkflow && !job.hasTargets) = true
      · rw [if_pos hw] at hmem
        simp at hmem
      · rw [Bool.not_eq_true] at hw
        rw [if_neg (by simp [hw]), if_pos huwd] at hmem
        exact hall job.name hmem

theorem stepOnce_allowed_below (I : List Nat) (wf : WF) (run : WRun)
    (ora : Oracles) (device : Option Nat) (st : TState)
    (huwd : run.useWorkflowDevices = true) (hms : run.modeService = true)
    (hsound : OracleSound ora) (h : ∀ n, st.allowed n ⊆ I) :
    ∀ n, (stepOnce wf run ora device st).2.allowed n ⊆ I := by
  unfold stepOnce
  cases hs : st.stack with
  | nil => simpa using h
  | cons job rest =>
    by_cases hstop : run.stop st.iter
    · simpa [hstop] using h
    · have hstop' : run.stop st.iter = false := by simpa using hstop
      by_cases hg : job ∈ st.visited ∨ ∃ p ∈ prereqSources wf job, p ∉ st.visited
      · simpa [hstop', hg] using h
      · simp only [hstop', Bool.false_eq_true, if_false, if_neg hg, huwd, hms,
          Bool.and_self, if_true]
        intro n d hd
        unfold workflowTargetsProcessing at hd
        rw [propagateEdges_mem, propagateEdges_mem] at hd
        have hpart :=
          partitionDevices_below I (execJob run ora device st.allowed job) job
            st.allowed
            (execJob_reported_below I run ora device st.allowed job huwd hms hsound h)
            (h job.name)
        rcases hd with (hd | ⟨_, hd⟩) | ⟨_, hd⟩
        · exact h n hd
        · exact hpart.1 hd
        · exact hpart.2 hd

theorem traverseLoop_allowed_below (I : List Nat) (wf : WF) (run : WRun)
    (ora : Oracles) (device : Option Nat) (fuel : Nat) (st : TState)
    (huwd : run.useWorkflowDevices = true) (hms : run.modeService = true)
    (hsound : OracleSound ora) (h : ∀ n, st.allowed n ⊆ I) :
    ∀ n, (traverseLoop wf run ora device fuel st).allowed n ⊆ I := by
  induction fuel generalizing st with
  | zero => exact h
  | succ k ih =>
    unfold traverseLoop
    have h' := stepOnce_allowed_below I wf run ora device st huwd hms hsound h
    rcases hs : stepOnce wf run ora device st with ⟨b, st'⟩
    rw [hs] at h'
    cases b
    · exact h'
    · exact ih st' h'

/-- The all-pass oracle is sound: it reports exactly the devices it is
given. -/
theorem allPassOra_sound : OracleSound allPassOra := by
  intro j ds p hp
  simp only [allPassOra, Option.getD_some, List.mem_map] at hp
  obtain ⟨d, hd, rfl⟩ := hp
  exact hd

/-- C1: for every Workflow Run in mode `service` with `use_workflow_devices`
set (and a sound child-Run oracle), `allowed["End"]` stays a subset of the
initial target set, and — when the traversal loop ends without a stop — the
result's `devices` maps each initial target `d` to `{success: d ∈
allowed["End"]}` and the result's `success` is true iff the initial target
set equals `allowed["End"]` (as sets). -/
theorem uwd_service_final_results (wf : WF) (run : WRun) (ora : Oracles)
    (device : Option Nat) (fuel : Nat)
    (huwd : run.useWorkflowDevices = true) (hms : run.modeService = true)
    (hsound : OracleSound ora) :
    (traverseLoop wf run ora device fuel (initState wf run)).allowed "End" ⊆
        run.resolver ∧
      ((traverseLoop wf run ora device fuel (initState wf run)).stopped = false →
        (workflowRun wf run ora device fuel).devices =
            some (run.resolver.map fun d =>
              (d, decide (d ∈ (traverseLoop wf run ora device fuel
                  (initState wf run)).allowed "End"))) ∧
          ((workflowRun wf run ora device fuel).success = true ↔
            ∀ d, d ∈ run.resolver ↔
              d ∈ (traverseLoop wf run ora device fuel
                  (initState wf run)).allowed "End")) := by
  have hinit : ∀ n, (initState wf run).allowed n ⊆ run.resolver := by
    intro n
    simp only [initState, huwd, hms, Bool.and_self, if_true]
    split
    · exact fun d hd => hd
    · simp
  have hbelow :=
    traverseLoop_allowed_below run.resolver wf run ora device fuel
      (initState wf run) huwd hms hsound hinit
  refine ⟨hbelow "End", fun hstop => ?_⟩
  unfold workflowRun finalize
  rw [if_neg (by simp [hstop]), if_pos (by simp [huwd, hms])]
  exact ⟨rfl, eqAsSets_iff run.resolver _⟩

/-- C1, witness for `uwd_service_final_results`: the `Start → End` workflow
over the single initial target `1` ends with `allowed["End"] ⊆ [1]`, the
per-device map `{1: {success: true}}` and `success = true`. -/
theorem uwd_service_final_results_witness :
    OracleSound allPassOra ∧
      (traverseLoop wfStartEnd runSvcUwd allPassOra none 10
          (initState wfStartEnd runSvcUwd)).allowed "End" ⊆ runSvcUwd.resolver ∧
      (workflowRun wfStartEnd runSvcUwd allPassOra none 10).success = true := by
  have h :=
    uwd_service_final_results wfStartEnd runSvcUwd allPassOra none 10 rfl rfl
      allPassOra_sound
  refine ⟨allPassOra_sound, h.1, ?_⟩
  have he : (traverseLoop wfStartEnd runSvcUwd allPassOra none 10
      (initState wfStartEnd runSvcUwd)).allowed "End" = [1] := by decide
  exact (h.2 (by decide)).2.mpr fun d => by rw [he]; exact Iff.rfl

/-- A device absent from `ts` contributes nothing to the attempt log slice. -/
theorem filter_map_pair_nil (i d : Nat) (ts : List Nat) (hd : d ∉ ts) :
    ((ts.map fun x => (i, x)).filter fun e => e.2 = d) = [] := by
  induction ts with
  | nil => rfl
  | cons t ts ih =>
    simp only [List.mem_cons, not_or] at hd
    simp only [List.map_cons, List.filter_cons]
    rw [if_neg (by simpa using Ne.symm hd.1)]
    exact ih hd.2

/-- One attempt adds at most one log entry per device when the target set has
no duplicates. -/
theorem filter_map_pair_len (i d : Nat) (ts : List Nat) (hnd : ts.Nodup) :
    (((ts.map fun x => (i, x)).filter fun e => e.2 = d)).length ≤ 1 := by
  induction ts with
  | nil => simp
  | cons t ts ih =>
    rw [List.nodup_cons] at hnd
    simp only [List.map_cons, List.filter_cons]
    by_cases htd : t = d
    · subst htd
      rw [if_pos (by simp)]
      rw [filter_map_pair_nil i t ts hnd.1]
      simp
    · rw [if_neg (by simpa using htd)]
      exact ih hnd.2

/-- Invocation-count bound for the target branch: the attempts from step
`(i, remain)` add at most `remain + 1` log entries for any one device. -/
theorem serviceGoT_count (h : Nat → Nat → Bool) (R d : Nat) :
    ∀ (remain i : Nat) (targets : List Nat) (acc : SResult), targets.Nodup →
      ((serviceGoT h R i remain targets acc).log.filter fun e => e.2 = d).length ≤
        ((acc.log.filter fun e => e.2 = d)).length + (remain + 1) := by
  intro remain
  induction remain with
  | zero =>
    intro i targets acc hnd
    rw [serviceGoT]
    by_cases hE : (targets.filter fun dv => !h i dv).isEmpty
    · rw [if_pos hE]
      simp only [List.filter_append, List.length_append]
      have := filter_map_pair_len i d targets hnd
      omega
    · rw [if_neg hE]
      simp only [List.filter_append, List.length_append]
      have := filter_map_pair_len i d targets hnd
      omega
  | succ r ih =>
    intro i targets acc hnd
    rw [serviceGoT]
    by_cases hE : (targets.filter fun dv => !h i dv).isEmpty
    · rw [if_pos hE]
      simp only [List.filter_append, List.length_append]
      have := filter_map_pair_len i d targets hnd
      omega
    · rw [if_neg hE]
      refine le_trans (ih (i + 1) _ _ (List.Nodup.filter _ hnd)) ?_
      simp only [List.filter_append, List.length_append]
      have := filter_map_pair_len i d targets hnd
      omega

/-- Membership of a device's log entry in one attempt's additions. -/
theorem mem_map_pair (i j d : Nat) (ts : List Nat) :
    (j, d) ∈ (ts.map fun x => (i, x)) ↔ j = i ∧ d ∈ ts := by
  simp only [List.mem_map, Prod.mk.injEq]
  constructor
  · rintro ⟨x, hx, rfl, rfl⟩
    exact ⟨rfl, hx⟩
  · rintro ⟨rfl, hd⟩
    exact ⟨d, hd, rfl, rfl⟩

/-- Appending one attempt's log preserves the no-reinvocation property when
every device still in the target set failed all earlier attempts. -/
theorem newlog_no_reinvoke (h : Nat → Nat → Bool) (d i : Nat)
    (targets : List Nat) (lg : List (Nat × Nat))
    (H1 : ∀ j, (j, d) ∈ lg → j < i)
    (H3 : d ∈ targets → ∀ j, (j, d) ∈ lg → h j d = false)
    (H2 : ∀ i₀ j, (i₀, d) ∈ lg → h i₀ d = true → (j, d) ∈ lg → j ≤ i₀) :
    ∀ i₀ j, (i₀, d) ∈ lg ++ (targets.map fun x => (i, x)) → h i₀ d = true →
      (j, d) ∈ lg ++ (targets.map fun x => (i, x)) → j ≤ i₀ := by
  intro i₀ j h₀ hh hj
  rw [List.mem_append, mem_map_pair] at h₀ hj
  rcases h₀ with h₀ | ⟨hi₀, hdt⟩
  · rcases hj with hj | ⟨hji, hdt⟩
    · exact H2 i₀ j h₀ hh hj
    · have hf := H3 hdt i₀ h₀
      rw [hf] at hh
      exact absurd hh (by simp)
  · subst hi₀
    rcases hj with hj | ⟨hji, _⟩
    · exact le_of_lt (H1 j hj)
    · omega

/-- No-reinvocation for the target branch: once a device's handler attempt
succeeds, no later attempt invokes it again. -/
theorem serviceGoT_no_reinvoke (h : Nat → Nat → Bool) (R d : Nat) :
    ∀ (remain i : Nat) (targets : List Nat) (acc : SResult),
      (∀ j, (j, d) ∈ acc.log → j < i) →
      (d ∈ targets → ∀ j, (j, d) ∈ acc.log → h j d = false) →
      (∀ i₀ j, (i₀, d) ∈ acc.log → h i₀ d = true → (j, d) ∈ acc.log → j ≤ i₀) →
      ∀ i₀ j, (i₀, d) ∈ (serviceGoT h R i remain targets acc).log →
        h i₀ d = true → (j, d) ∈ (serviceGoT h R i remain targets acc).log →
          j ≤ i₀ := by
  intro remain
  induction remain with
  | zero =>
    intro i targets acc H1 H3 H2
    rw [serviceGoT]
    by_cases hE : (targets.filter fun dv => !h i dv).isEmpty
    · rw [if_pos hE]
      exact newlog_no_reinvoke h d i targets acc.log H1 H3 H2
    · rw [if_neg hE]
      exact newlog_no_reinvoke h d i targets acc.log H1 H3 H2
  | succ r ih =>
    intro i targets acc H1 H3 H2
    rw [serviceGoT]
    by_cases hE : (targets.filter fun dv => !h i dv).isEmpty
    · rw [if_pos hE]
      exact newlog_no_reinvoke h d i targets acc.log H1 H3 H2
    · rw [if_neg hE]
      refine ih (i + 1) _ _ ?_ ?_ ?_
      · intro j hj
        rw [List.mem_append, mem_map_pair] at hj
        rcases hj with hj | ⟨hj2, _⟩
        · have := H1 j hj
          omega
        · omega
      · intro hdr j hj
        rw [List.mem_filter] at hdr
        rw [List.mem_append, mem_map_pair] at hj
        rcases hj with hj | ⟨hj2, _⟩
        · exact H3 hdr.1 j hj
        · subst hj2
          simpa using hdr.2
      · exact newlog_no_reinvoke h d i targets acc.log H1 H3 H2

/-- C3: for every Service Run with retry count `R` over a non-empty,
duplicate-free target set, the handler is invoked at most `R + 1` times per
device (the invocation log holds at most `R + 1` entries for any device),
and a device whose attempt succeeded is removed from the target set and never
invoked again: any log entry for that device lies at or before its successful
attempt. -/
theorem service_retry_bound (stop : Nat → Bool) (h0 : Nat → Bool)
    (h : Nat → Nat → Bool) (R : Nat) (targets : List Nat) (d : Nat)
    (hnd : targets.Nodup) (hne : targets ≠ []) :
    (((serviceBuildResults stop h0 h R targets).log.filter
        fun e => e.2 = d).length ≤ R + 1) ∧
      ∀ i j, (i, d) ∈ (serviceBuildResults stop h0 h R targets).log →
        h i d = true → (j, d) ∈ (serviceBuildResults stop h0 h R targets).log →
          j ≤ i := by
  have hE : targets.isEmpty = false := by
    cases targets with
    | nil => exact absurd rfl hne
    | cons a l => rfl
  unfold serviceBuildResults
  rw [hE]
  simp only [Bool.false_eq_true, if_false]
  constructor
  · simpa using serviceGoT_count h R d R 0 targets ⟨false, [], [], none, []⟩ hnd
  · exact serviceGoT_no_reinvoke h R d R 0 targets ⟨false, [], [], none, []⟩
      (by simp) (by simp) (by simp)

/-- C3, witness for `service_retry_bound`: two devices, one retry, the
handler succeeding only on device `1`. -/
theorem service_retry_bound_witness :
    ([1, 2] : List Nat).Nodup ∧ ([1, 2] : List Nat) ≠ [] ∧
      (((serviceBuildResults (fun _ => false) (fun _ => true)
          (fun _ dv => decide (dv = 1)) 1 [1, 2]).log.filter
            fun e => e.2 = 1).length ≤ 1 + 1) :=
  ⟨by decide, by decide,
    (service_retry_bound (fun _ => false) (fun _ => true)
        (fun _ dv => decide (dv = 1)) 1 [1, 2] 1 (by decide) (by decide)).1⟩

theorem range'_concat_one (s n : Nat) :
    List.range' s (n + 1) = List.range' s n ++ [s + n] := by
  rw [List.range'_concat]
  simp

/-- Key invariant of the target branch: with retries configured and a
non-empty target set, the attempt keys form a consecutive block
`"Attempt 1" … "Attempt m"`. -/
theorem serviceGoT_keys (h : Nat → Nat → Bool) (R : Nat) (hR : R ≠ 0) :
    ∀ (remain i : Nat) (targets : List Nat) (acc : SResult),
      targets ≠ [] →
      acc.keys = (List.range' 1 i).map (fun n => "Attempt " ++ toString n) →
      ∃ m, m ≤ i + remain + 1 ∧
        (serviceGoT h R i remain targets acc).keys =
          (List.range' 1 m).map (fun n => "Attempt " ++ toString n) := by
  intro remain
  induction remain with
  | zero =>
    intro i targets acc hne hkeys
    rw [serviceGoT]
    by_cases hE : (targets.filter fun dv => !h i dv).isEmpty
    · rw [if_pos hE]
      exact ⟨i, by omega, hkeys⟩
    · rw [if_neg hE]
      refine ⟨i + 1, by omega, ?_⟩
      rw [if_pos hR, hkeys, range'_concat_one, List.map_append, Nat.add_comm 1 i]
      rfl
  | succ r ih =>
    intro i targets acc hne hkeys
    rw [serviceGoT]
    by_cases hE : (targets.filter fun dv => !h i dv).isEmpty
    · rw [if_pos hE]
      exact ⟨i, by omega, hkeys⟩
    · rw [if_neg hE]
      have hne' : (targets.filter fun dv => !h i dv) ≠ [] := by
        intro hnil
        rw [hnil] at hE
        exact hE rfl
      have hkeys' :
          (if R ≠ 0 then acc.keys ++ ["Attempt " ++ toString (i + 1)] else acc.keys) =
            (List.range' 1 (i + 1)).map (fun n => "Attempt " ++ toString n) := by
        rw [if_pos hR, hkeys, range'_concat_one, List.map_append, Nat.add_comm 1 i]
        rfl
      obtain ⟨m, hm, heq⟩ :=
        ih (i + 1) (targets.filter fun dv => !h i dv)
          { acc with
              devices :=
                acc.devices ++ (targets.filter fun dv => h i dv).map fun dv => (dv, true)
              keys :=
                if R ≠ 0 then acc.keys ++ ["Attempt " ++ toString (i + 1)] else acc.keys
              log := acc.log ++ targets.map fun dv => (i, dv) }
          hne' hkeys'
      exact ⟨m, by omega, heq⟩

/-- Key invariant of the target-less branch: with retries configured, every
attempt (failed or not) is recorded, under `"Attempts 1" … "Attempts m"`. -/
theorem serviceGoNT_keys (h0 : Nat → Bool) (R : Nat) (hR : R ≠ 0) :
    ∀ (remain i : Nat) (keys : List String),
      keys = (List.range' 1 i).map (fun n => "Attempts " ++ toString n) →
      ∃ m, i + 1 ≤ m ∧ m ≤ i + remain + 1 ∧
        (serviceGoNT h0 R i remain keys).keys =
          (List.range' 1 m).map (fun n => "Attempts " ++ toString n) := by
  intro remain
  induction remain with
  | zero =>
    intro i keys hkeys
    rw [serviceGoNT]
    refine ⟨i + 1, by omega, by omega, ?_⟩
    rw [if_pos hR, hkeys, range'_concat_one, List.map_append, Nat.add_comm 1 i]
    rfl
  | succ r ih =>
    intro i keys hkeys
    rw [serviceGoNT]
    have hkeys' :
        (if R ≠ 0 then keys ++ ["Attempts " ++ toString (i + 1)] else keys) =
          (List.range' 1 (i + 1)).map (fun n => "Attempts " ++ toString n) := by
      rw [if_pos hR, hkeys, range'_concat_one, List.map_append, Nat.add_comm 1 i]
      rfl
    by_cases hs : h0 i
    · rw [if_pos hs]
      exact ⟨i + 1, by omega, by omega, hkeys'⟩
    · rw [if_neg hs]
      obtain ⟨m, hm1, hm2, heq⟩ := ih (i + 1) _ hkeys'
      exact ⟨m, by omega, by omega, heq⟩

/-- C7, counterexample. A target-less Service Run with `retries = 1` whose
attempt fails: the claim says the non-final failed attempt 0 is recorded
under key `"Attempt 1"`, but the target-less branch of `build_results`
(line 183) uses the plural key `"Attempts 1"` — and records every attempt,
final or not. -/
theorem targetless_attempts_key_cex :
    (serviceBuildResults (fun _ => false) (fun _ => false) (fun _ _ => true) 1
        []).keys = ["Attempts 1", "Attempts 2"] ∧
      "Attempt 1" ∉ (serviceBuildResults (fun _ => false) (fun _ => false)
        (fun _ _ => true) 1 []).keys := by
  decide

/-- C7 (amended): with retries configured, a Service Run **with targets**
records its attempts under the consecutive keys `"Attempt 1" … "Attempt m"`
(`m ≤ R + 1`) — every attempt that leaves failed targets is recorded,
including the final one — so the 3-device, `retries = 1` scenario failing on
one device yields `success = false` with key `"Attempt 1"` present; a
**target-less** Run instead records every executed attempt under the plural
keys `"Attempts 1" … "Attempts m"`. -/
theorem attempt_key_format :
    (∀ (stop : Nat → Bool) (h0 : Nat → Bool) (h : Nat → Nat → Bool) (R : Nat)
        (targets : List Nat), targets ≠ [] → R ≠ 0 →
        ∃ m, m ≤ R + 1 ∧
          (serviceBuildResults stop h0 h R targets).keys =
            (List.range' 1 m).map fun n => "Attempt " ++ toString n) ∧
      (∀ (stop : Nat → Bool) (h0 : Nat → Bool) (h : Nat → Nat → Bool) (R : Nat),
        R ≠ 0 →
        ∃ m, 1 ≤ m ∧ m ≤ R + 1 ∧
          (serviceBuildResults stop h0 h R []).keys =
            (List.range' 1 m).map fun n => "Attempts " ++ toString n) ∧
      ((serviceBuildResults (fun _ => false) (fun _ => true) (fun _ dv => dv ≠ 2) 1
          [1, 2, 3]).success = false ∧
        "Attempt 1" ∈ (serviceBuildResults (fun _ => false) (fun _ => true)
          (fun _ dv => dv ≠ 2) 1 [1, 2, 3]).keys) := by
  refine ⟨fun stop h0 h R targets hne hR => ?_, fun stop h0 h R hR => ?_, by decide⟩
  · have hE : targets.isEmpty = false := by
      cases targets with
      | nil => exact absurd rfl hne
      | cons a l => rfl
    unfold serviceBuildResults
    rw [hE]
    simp only [Bool.false_eq_true, if_false]
    obtain ⟨m, hm, heq⟩ :=
      serviceGoT_keys h R hR R 0 targets ⟨false, [], [], none, []⟩ hne rfl
    exact ⟨m, by omega, heq⟩
  · unfold serviceBuildResults
    rw [if_pos (show ([] : List Nat).isEmpty = true from rfl)]
    obtain ⟨m, hm1, hm2, heq⟩ := serviceGoNT_keys h0 R hR R 0 [] rfl
    exact ⟨m, by omega, by omega, heq⟩

/-- C7, witness for `attempt_key_format`: the literal 3-device scenario with
`retries = 1` and device 2 failing, and a failing target-less run. -/
theorem attempt_key_format_witness :
    (([1, 2, 3] : List Nat) ≠ [] ∧ (1 : Nat) ≠ 0) ∧
      (∃ m, m ≤ 1 + 1 ∧
        (serviceBuildResults (fun _ => false) (fun _ => true) (fun _ dv => dv ≠ 2) 1
            [1, 2, 3]).keys =
          (List.range' 1 m).map fun n => "Attempt " ++ toString n) ∧
      ∃ m, 1 ≤ m ∧ m ≤ 1 + 1 ∧
        (serviceBuildResults (fun _ => false) (fun _ => false) (fun _ _ => true) 1
            []).keys =
          (List.range' 1 m).map fun n => "Attempts " ++ toString n :=
  ⟨⟨by decide, by decide⟩,
    attempt_key_format.1 (fun _ => false) (fun _ => true) (fun _ dv => dv ≠ 2) 1
      [1, 2, 3] (by decide) (by decide),
    attempt_key_format.2.1 (fun _ => false) (fun _ => false) (fun _ _ => true) 1
      (by decide)⟩
